import Mathlib

/-!
# Verification of the keyword classifiers and grouping helpers

This file gives a shallow embedding, in Lean 4, of the keyword-based text
classifiers and the grouping helpers of the escrow-dapp front-ends:

* `fallbackCategorization` from `escro-frontend-shashank/src/utils/ai.ts`;
* `categorizeByMessages`, `categorizeTransactions` and `getErrorCategory`
  from the transaction-dashboard page.

Strings are modelled as lists of Unicode code points (`List Nat`); JavaScript
`toLowerCase` is modelled on the ASCII range (all keywords in the taxonomy
tables are ASCII), `s.includes(sub)` is the list-infix test, and `trim`
removes leading and trailing whitespace.
-/

namespace Escrow

/-- The code points of a string literal; used to write concrete inputs. -/
def strChars (s : String) : List Nat :=
  s.data.map Char.toNat

/-- ASCII lowercasing of one code point (model of JS `toLowerCase`). -/
def lowerChar (c : Nat) : Nat :=
  if 65 ≤ c ∧ c ≤ 90 then c + 32 else c

/-- Lowercasing of a whole string. -/
def lowerStr (s : List Nat) : List Nat :=
  s.map lowerChar

/-- Whitespace code points (space, tab, CR, LF). -/
def isWs (c : Nat) : Bool :=
  c = 32 ∨ c = 9 ∨ c = 13 ∨ c = 10

/-- Model of JS `s.includes(sub)`: `sub` occurs contiguously inside `s`. -/
def includesSub (s sub : List Nat) : Bool :=
  decide (sub <:+: s)

/-- Model of JS `s.trim()`: drop leading and trailing whitespace. -/
def trimChars (s : List Nat) : List Nat :=
  ((s.dropWhile isWs).reverse.dropWhile isWs).reverse

/-! ## The classifier of `ai.ts` (`fallbackCategorization`) -/

/-- The keyword table of `fallbackCategorization` (`categoryKeywords` in
`ai.ts`), in source order. -/
def categoryKeywords : List (String × List String) :=
  [ ("Food",
      ["restaurant", "food", "meal", "lunch", "dinner", "breakfast", "coffee",
       "pizza", "burger", "grocery", "supermarket", "bakery", "cafe", "eat",
       "snack", "drink", "beverage", "kitchen", "cooking", "recipe"]),
    ("Shopping",
      ["shopping", "store", "mall", "buy", "purchase", "retail", "clothes",
       "clothing", "fashion", "shoes", "accessories", "electronics", "gadget",
       "amazon", "ebay", "shop", "merchandise", "item", "product"]),
    ("Bills",
      ["bill", "utility", "electricity", "gas", "water", "internet", "phone",
       "rent", "mortgage", "insurance", "subscription", "netflix", "spotify",
       "payment", "monthly", "annual", "service charge", "fee"]),
    ("Entertainment",
      ["movie", "cinema", "theater", "concert", "music", "game", "gaming",
       "entertainment", "fun", "party", "club", "bar", "vacation", "travel",
       "holiday", "ticket", "event", "show", "sports", "hobby"]),
    ("Transport",
      ["transport", "taxi", "uber", "lyft", "bus", "train", "subway", "flight",
       "airline", "fuel", "gas station", "parking", "car", "vehicle",
       "motorcycle", "bike", "commute", "travel", "journey"]),
    ("Services",
      ["service", "repair", "maintenance", "cleaning", "haircut", "salon",
       "spa", "doctor", "medical", "hospital", "dentist", "lawyer", "consultant",
       "professional", "freelance", "contractor", "plumber", "electrician"]),
    ("Investment",
      ["investment", "stock", "crypto", "bitcoin", "ethereum", "savings",
       "portfolio", "trading", "broker", "dividend", "interest", "fund",
       "etf", "bond", "financial", "bank", "deposit"]),
    ("Gift",
      ["gift", "present", "birthday", "anniversary", "christmas", "holiday",
       "donation", "charity", "tip", "bonus", "reward", "prize", "wedding",
       "graduation", "celebration", "surprise"]) ]

/-- `fallbackCategorization` from `ai.ts`: lowercase the message, scan the
category table in order, return the first category one of whose keywords is a
substring of the lowercased message, and `"Other"` when none matches. -/
def fallbackCategorization (message : List Nat) : String :=
  let lowerMessage := lowerStr message
  match categoryKeywords.findSome? (fun ck =>
      if ck.2.any (fun keyword => includesSub lowerMessage (strChars keyword))
      then some ck.1 else none) with
  | some category => category
  | none => "Other"

/-! ## The dashboard page: data model and taxonomy tables -/

/-- The classification-relevant fields of the dashboard's `Transaction`
interface (`message` and `errorMessage` are optional there). -/
structure Transaction where
  status : String
  message : Option String
  errorMessage : Option String
  deriving DecidableEq, Repr

/-- One entry of the dashboard's message taxonomy (`MessageCategory`
without the presentation-only `color`/`icon` fields). -/
structure MessageCategory where
  category : String
  keywords : List String
  deriving DecidableEq, Repr

/-- The `messageCategories` table of `categorizeByMessages`, in source
order; the last entry, `"Other Messages"`, is the keywordless catch-all. -/
def messageCategories : List MessageCategory :=
  [ ⟨"Payments & Purchases",
      ["payment", "purchase", "buy", "pay", "invoice", "bill", "shopping", "store"]⟩,
    ⟨"Gifts & Tips",
      ["gift", "tip", "donation", "birthday", "christmas", "present", "thanks", "reward"]⟩,
    ⟨"Business & Work",
      ["salary", "work", "business", "contract", "service", "freelance", "client", "project"]⟩,
    ⟨"Family & Friends",
      ["family", "friend", "mom", "dad", "brother", "sister", "loan", "borrow", "help"]⟩,
    ⟨"Food & Dining",
      ["food", "dinner", "lunch", "restaurant", "coffee", "meal", "pizza", "delivery"]⟩,
    ⟨"Testing & Development",
      ["test", "testing", "demo", "example", "try", "sample", "debug", "dev"]⟩,
    ⟨"Other Messages", []⟩ ]

/-- The per-item classification loop of `categorizeByMessages`: lowercase the
message, scan every category except the final catch-all in table order, and
return the first whose keyword list has a (lowercased) substring match; when
none matches the item goes to `"Other Messages"`. -/
def messageCategoryFor (msg : List Nat) : String :=
  let message := lowerStr msg
  match messageCategories.dropLast.findSome? (fun c =>
      if c.keywords.any (fun keyword => includesSub message (lowerStr (strChars keyword)))
      then some c.category else none) with
  | some category => category
  | none => "Other Messages"

/-- The guard of the `txsWithMessages` filter in `categorizeByMessages`:
`tx.message && tx.message.trim() !== ''`. -/
def txHasMessage (tx : Transaction) : Bool :=
  match tx.message with
  | none => false
  | some m => m != "" && trimChars (strChars m) != []

/-- The message text used when classifying a transaction that passed the
`txsWithMessages` filter (`tx.message!`). -/
def txMessageText (tx : Transaction) : List Nat :=
  strChars (tx.message.getD "")

/-- Appending to a key's bucket in an insertion-ordered string-keyed record:
push onto the first bucket carrying `key`, and create the bucket at the end
if the key is absent.  This models both the `acc[errorType].push(tx)` /
`acc[errorType] = []` pattern of `categorizeTransactions` and the
`category.transactions.push(tx)` pattern of `categorizeByMessages`. -/
def pushAt (key : String) (tx : Transaction) :
    List (String × List Transaction) → List (String × List Transaction)
  | [] => [(key, [tx])]
  | (n, l) :: bs => if n = key then (n, l ++ [tx]) :: bs else (n, l) :: pushAt key tx bs

/-- `categorizeByMessages` (its classification core): keep the transactions
with a present, non-blank message, push each onto the bucket of its
classified category (buckets start out as the full taxonomy, in table order,
all empty), and finally drop the buckets that stayed empty. -/
def categorizeByMessages (txs : List Transaction) : List (String × List Transaction) :=
  let txsWithMessages := txs.filter txHasMessage
  let initial := messageCategories.map fun c => (c.category, ([] : List Transaction))
  let buckets := txsWithMessages.foldl
    (fun acc tx => pushAt (messageCategoryFor (txMessageText tx)) tx acc) initial
  buckets.filter fun b => decide (0 < b.2.length)

/-- `getErrorCategory`: classify an error string by the first matching rule
of the fixed rule chain. -/
def getErrorCategory (errorMessage : List Nat) : String :=
  let message := lowerStr errorMessage
  if includesSub message (strChars "insufficient") || includesSub message (strChars "depleted") then
    "Insufficient Funds"
  else if includesSub message (strChars "declined") || includesSub message (strChars "cancelled") then
    "User Cancelled"
  else if includesSub message (strChars "network") || includesSub message (strChars "connection") then
    "Network Issues"
  else if includesSub message (strChars "address") || includesSub message (strChars "invalid") then
    "Invalid Address"
  else if includesSub message (strChars "timeout") then
    "Timeout"
  else
    "Other Errors"

/-- The error category used for a failed transaction inside
`categorizeTransactions`: `getErrorCategory(tx.errorMessage || '')`. -/
def txErrorCategory (tx : Transaction) : String :=
  getErrorCategory (strChars (tx.errorMessage.getD ""))

/-- The `failedByError` reduce of `categorizeTransactions`: group the failed
transactions by error category into a string-keyed record, materializing a
key's bucket the first time the key appears. -/
def failedByError (failed : List Transaction) : List (String × List Transaction) :=
  failed.foldl (fun acc tx => pushAt (txErrorCategory tx) tx acc) []

/-- `categorizeTransactions`: the two fixed status buckets followed by the
failed-transaction buckets in the record's (insertion) order, with titles
prefixed by `"Failed: "`. -/
def categorizeTransactions (txs : List Transaction) : List (String × List Transaction) :=
  let successful := txs.filter fun tx => tx.status == "success"
  let pending := txs.filter fun tx => tx.status == "pending"
  let failed := txs.filter fun tx => tx.status == "failed"
  [("Successful Transactions", successful), ("Pending Transactions", pending)]
    ++ (failedByError failed).map fun e => ("Failed: " ++ e.1, e.2)

/-! ## Spec-side definitions

These follow the specification's words rather than the source; they are
compared against the source embeddings in the refinement theorems. -/

/-- A keyword matches a text case-insensitively when it is a substring of it
after lowercasing both. -/
def keywordMatches (text : List Nat) (keyword : String) : Bool :=
  includesSub (lowerStr text) (lowerStr (strChars keyword))

/-- Modelled from the spec: "the `name` of the first category in taxonomy
order whose keyword set contains at least one keyword that is a
case-insensitive substring of the input text.  If no non-catch-all category
matches, output the catch-all category's name" (the catch-all is the last
taxonomy entry and has no keywords). -/
def specClassify (tax : List MessageCategory) (text : List Nat) : String :=
  match tax.find? (fun c => c.keywords.any (keywordMatches text)) with
  | some c => c.category
  | none => ((tax.getLast?).map MessageCategory.category).getD ""

/-- The keys of a list in first-appearance order (used to state the lazy
materialization order of `failedByError`). -/
def dedupFirst : List String → List String
  | [] => []
  | x :: xs => x :: (dedupFirst xs).filter (fun y => y != x)

/-! ## Basic lemmas about the text model -/

theorem lowerChar_idem (c : Nat) : lowerChar (lowerChar c) = lowerChar c := by
  simp only [lowerChar]
  split_ifs <;> omega

theorem lowerStr_idem (s : List Nat) : lowerStr (lowerStr s) = lowerStr s := by
  simp [lowerStr, Function.comp_def, lowerChar_idem]

/-- Whitespace survives lowercasing. -/
theorem isWs_lowerChar {c : Nat} (h : isWs c = true) : isWs (lowerChar c) = true := by
  simp only [isWs, decide_eq_true_eq] at h ⊢
  simp only [lowerChar]
  split_ifs <;> omega

/-- A keyword containing a non-whitespace code point is never a substring of
an all-whitespace string. -/
theorem includesSub_ws {s sub : List Nat} (hs : ∀ c ∈ s, isWs c = true)
    (hsub : ∃ c ∈ sub, isWs c = false) : includesSub s sub = false := by
  rw [includesSub, decide_eq_false_iff_not]
  intro hinf
  obtain ⟨c, hc, hwc⟩ := hsub
  rw [hs c (hinf.subset hc)] at hwc
  exact Bool.noConfusion hwc

theorem lowerStr_ws {s : List Nat} (hs : ∀ c ∈ s, isWs c = true) :
    ∀ c ∈ lowerStr s, isWs c = true := by
  intro c hc
  obtain ⟨d, hd, rfl⟩ := List.mem_map.mp hc
  exact isWs_lowerChar (hs d hd)

/-- Every keyword of the `ai.ts` table contains a non-whitespace code point. -/
theorem categoryKeywords_ink :
    (categoryKeywords.all fun ck => ck.2.all fun kw =>
      (strChars kw).any fun c => !(isWs c)) = true := by
  decide

/-- On an all-whitespace input, `fallbackCategorization` reaches its
default branch. -/
theorem fallbackCategorization_ws {s : List Nat} (hs : ∀ c ∈ s, isWs c = true) :
    fallbackCategorization s = "Other" := by
  have hnone : categoryKeywords.findSome? (fun ck =>
      if ck.2.any (fun keyword => includesSub (lowerStr s) (strChars keyword))
      then some ck.1 else none) = none := by
    rw [List.findSome?_eq_none_iff]
    intro ck hck
    have hall := List.all_eq_true.mp categoryKeywords_ink ck hck
    have hfalse : (ck.2.any fun keyword =>
        includesSub (lowerStr s) (strChars keyword)) = false := by
      rw [List.any_eq_false]
      intro kw hkw
      have hink := List.all_eq_true.mp hall kw hkw
      obtain ⟨c, hc, hnc⟩ := List.any_eq_true.mp hink
      have hcf : isWs c = false := by simpa using hnc
      simp [includesSub_ws (lowerStr_ws hs) ⟨c, hc, hcf⟩]
    rw [hfalse]
    simp
  simp only [fallbackCategorization]
  rw [hnone]

/-- On an all-whitespace input, every rule of `getErrorCategory` fails and
the default is returned. -/
theorem getErrorCategory_ws {s : List Nat} (hs : ∀ c ∈ s, isWs c = true) :
    getErrorCategory s = "Other Errors" := by
  have hf : ∀ kw : String, (∃ c ∈ strChars kw, isWs c = false) →
      includesSub (lowerStr s) (strChars kw) = false :=
    fun _ hkw => includesSub_ws (lowerStr_ws hs) hkw
  simp only [getErrorCategory]
  rw [hf "insufficient" (by decide), hf "depleted" (by decide),
      hf "declined" (by decide), hf "cancelled" (by decide),
      hf "network" (by decide), hf "connection" (by decide),
      hf "address" (by decide), hf "invalid" (by decide),
      hf "timeout" (by decide)]
  simp

/-! ## Lemmas about `pushAt` and the grouping folds -/

theorem pushAt_mem (key : String) (tx : Transaction) (names : List String)
    (g : String → List Transaction) (hnd : names.Nodup) (hmem : key ∈ names) :
    pushAt key tx (names.map fun n => (n, g n)) =
      names.map fun n => (n, g n ++ if n = key then [tx] else []) := by
  induction names with
  | nil => simp at hmem
  | cons n ns ih =>
    have hn : n ∉ ns := (List.nodup_cons.mp hnd).1
    simp only [List.map_cons, pushAt]
    by_cases h : n = key
    · rw [if_pos h, if_pos h]
      congr 1
      symm
      apply List.map_congr_left
      intro m hm
      have hmk : m ≠ key := by
        intro hmk
        apply hn
        rw [h, ← hmk]
        exact hm
      simp [hmk]
    · rw [if_neg h, if_neg h]
      have hkey : key ∈ ns := by
        rcases List.mem_cons.mp hmem with h' | h'
        · exact absurd h'.symm h
        · exact h'
      rw [ih (List.nodup_cons.mp hnd).2 hkey]
      simp

theorem pushAt_not_mem (key : String) (tx : Transaction) :
    ∀ (l : List (String × List Transaction)), (∀ b ∈ l, b.1 ≠ key) →
      pushAt key tx l = l ++ [(key, [tx])] := by
  intro l
  induction l with
  | nil => intro _; simp [pushAt]
  | cons b bs ih =>
    intro h
    simp only [pushAt]
    rw [if_neg (h b (List.mem_cons_self b bs)), ih fun x hx => h x (List.mem_cons_of_mem b hx)]
    simp

theorem foldl_pushAt_fixed (cl : Transaction → String) (names : List String)
    (hnd : names.Nodup) :
    ∀ (txs : List Transaction) (g : String → List Transaction),
      (∀ tx ∈ txs, cl tx ∈ names) →
      txs.foldl (fun acc tx => pushAt (cl tx) tx acc) (names.map fun n => (n, g n)) =
        names.map fun n => (n, g n ++ txs.filter fun tx => cl tx == n) := by
  intro txs
  induction txs with
  | nil => intro g _; simp
  | cons tx txs ih =>
    intro g hcl
    simp only [List.foldl_cons]
    rw [pushAt_mem (cl tx) tx names g hnd (hcl tx (List.mem_cons_self _ _)),
      ih _ fun t ht => hcl t (List.mem_cons_of_mem _ ht)]
    apply List.map_congr_left
    intro n _
    simp only [List.filter_cons]
    by_cases h : cl tx = n
    · simp [h, List.append_assoc]
    · have h' : n ≠ cl tx := fun hn => h hn.symm
      simp [h, h']

/-! ## Lemmas about `dedupFirst` -/

theorem mem_dedupFirst {x : String} : ∀ {l : List String}, x ∈ dedupFirst l ↔ x ∈ l := by
  intro l
  induction l with
  | nil => simp [dedupFirst]
  | cons y ys ih =>
    simp only [dedupFirst, List.mem_cons, List.mem_filter]
    constructor
    · rintro (rfl | ⟨hx, _⟩)
      · exact Or.inl rfl
      · exact Or.inr (ih.mp hx)
    · rintro (rfl | hx)
      · exact Or.inl rfl
      · by_cases hxy : x = y
        · exact Or.inl hxy
        · exact Or.inr ⟨ih.mpr hx, by simp [hxy]⟩

theorem dedupFirst_nodup : ∀ l : List String, (dedupFirst l).Nodup := by
  intro l
  induction l with
  | nil => simp [dedupFirst]
  | cons y ys ih =>
    simp only [dedupFirst]
    rw [List.nodup_cons]
    exact ⟨by simp [List.mem_filter], ih.filter _⟩

theorem dedupFirst_append_singleton (x : String) : ∀ l : List String,
    dedupFirst (l ++ [x]) = if x ∈ l then dedupFirst l else dedupFirst l ++ [x] := by
  intro l
  induction l with
  | nil => simp [dedupFirst]
  | cons y ys ih =>
    rw [List.cons_append]
    show y :: (dedupFirst (ys ++ [x])).filter (fun z => z != y) = _
    rw [ih]
    by_cases hmem : x ∈ ys
    · rw [if_pos hmem, if_pos (List.mem_cons_of_mem y hmem)]
      rfl
    · rw [if_neg hmem]
      by_cases hxy : x = y
      · subst hxy
        rw [if_pos (List.mem_cons_self x ys), List.filter_append]
        have hx : [x].filter (fun z => z != x) = [] := by simp
        rw [hx, List.append_nil]
        rfl
      · have hx : x ∉ y :: ys := by
          intro hx
          rcases List.mem_cons.mp hx with h | h
          · exact hxy h
          · exact hmem h
        rw [if_neg hx, List.filter_append]
        have hone : [x].filter (fun z => z != y) = [x] := by simp [hxy]
        rw [hone]
        rfl

/-! ## Structural characterizations of the two groupings -/

/-- `failedByError` groups by error category: the keys appear in
first-appearance order and each bucket keeps the input order. -/
theorem failedByError_characterization (txs : List Transaction) :
    failedByError txs = (dedupFirst (txs.map txErrorCategory)).map fun k =>
      (k, txs.filter fun tx => txErrorCategory tx == k) := by
  induction txs using List.reverseRecOn with
  | nil => rfl
  | append_singleton txs tx ih =>
    simp only [failedByError] at ih ⊢
    rw [List.foldl_append, List.foldl_cons, List.foldl_nil, ih, List.map_append,
      List.map_cons, List.map_nil, dedupFirst_append_singleton]
    by_cases hmem : txErrorCategory tx ∈ txs.map txErrorCategory
    · rw [if_pos hmem,
        pushAt_mem _ _ _ _ (dedupFirst_nodup _) (mem_dedupFirst.mpr hmem)]
      apply List.map_congr_left
      intro k _
      simp only [List.filter_append, List.filter_cons, List.filter_nil]
      by_cases h : txErrorCategory tx = k
      · simp [h]
      · have h' : k ≠ txErrorCategory tx := fun hk => h hk.symm
        simp [h, h']
    · rw [if_neg hmem, pushAt_not_mem _ _ _ ?side, List.map_append]
      case side =>
        intro b hb
        obtain ⟨k, hk, rfl⟩ := List.mem_map.mp hb
        exact fun h => hmem (h ▸ mem_dedupFirst.mp hk)
      congr 1
      · apply List.map_congr_left
        intro k hk
        have hk' : k ∈ txs.map txErrorCategory := mem_dedupFirst.mp hk
        have hne : txErrorCategory tx ≠ k := fun h => hmem (h ▸ hk')
        simp [List.filter_append, List.filter_cons, hne]
      · have hnil : (txs.filter fun t => txErrorCategory t == txErrorCategory tx) = [] := by
          rw [List.filter_eq_nil_iff]
          intro a ha
          simp only [beq_iff_eq]
          exact fun h => hmem (h ▸ List.mem_map_of_mem txErrorCategory ha)
        simp [List.filter_append, List.filter_cons, hnil]

/-- `findSome?` with a guarded function is `find?` followed by the
projection. -/
theorem findSome?_guard {α β : Type} (p : α → Bool) (f : α → β) :
    ∀ l : List α,
      (l.findSome? fun a => if p a then some (f a) else none) = (l.find? p).map f := by
  intro l
  induction l with
  | nil => rfl
  | cons a l ih =>
    rw [List.findSome?_cons, List.find?_cons]
    by_cases h : p a
    · simp [h]
    · simp only [h, Bool.false_eq_true, if_false, cond_false]
      exact ih

/-- The classification loop always lands in the taxonomy. -/
theorem messageCategoryFor_mem (msg : List Nat) :
    messageCategoryFor msg ∈ messageCategories.map MessageCategory.category := by
  cases hfind : messageCategories.dropLast.findSome? (fun c =>
      if c.keywords.any (fun keyword => includesSub (lowerStr msg) (lowerStr (strChars keyword)))
      then some c.category else none) with
  | none =>
    simp only [messageCategoryFor, hfind]
    decide
  | some name =>
    simp only [messageCategoryFor, hfind]
    obtain ⟨c, hc, hcf⟩ := List.exists_of_findSome?_eq_some hfind
    have hmem : c ∈ messageCategories := (List.dropLast_sublist _).mem hc
    split at hcf
    · cases hcf
      exact List.mem_map_of_mem MessageCategory.category hmem
    · cases hcf

/-- The structural characterization of `categorizeByMessages`: the surviving
buckets are the taxonomy in table order, each holding, in input order, the
participating transactions that classify to it, with empty buckets dropped. -/
theorem categorizeByMessages_characterization (txs : List Transaction) :
    categorizeByMessages txs =
      (messageCategories.map fun c =>
        (c.category, (txs.filter txHasMessage).filter fun tx =>
          messageCategoryFor (txMessageText tx) == c.category)).filter
        fun b => decide (0 < b.2.length) := by
  have hnames : (messageCategories.map MessageCategory.category).Nodup := by decide
  simp only [categorizeByMessages]
  have hinit : messageCategories.map (fun c => (c.category, ([] : List Transaction)))
      = (messageCategories.map MessageCategory.category).map
          fun n => (n, ([] : List Transaction)) := by
    rw [List.map_map]
    rfl
  rw [hinit, foldl_pushAt_fixed (fun tx => messageCategoryFor (txMessageText tx)) _ hnames _ _
      fun tx _ => messageCategoryFor_mem (txMessageText tx)]
  rw [List.map_map]
  rfl

/-- The `ai.ts` table viewed as a taxonomy in the spec sense: the eight
keyword categories followed by the `"Other"` catch-all. -/
def aiTaxonomy : List MessageCategory :=
  (categoryKeywords.map fun ck => ⟨ck.1, ck.2⟩) ++ [⟨"Other", []⟩]

theorem any_congr_mem {α : Type} (p q : α → Bool) :
    ∀ l : List α, (∀ a ∈ l, p a = q a) → l.any p = l.any q := by
  intro l
  induction l with
  | nil => intro _; rfl
  | cons a l ih =>
    intro h
    rw [List.any_cons, List.any_cons, h a (List.mem_cons_self a l),
      ih fun x hx => h x (List.mem_cons_of_mem a hx)]

theorem find?_congr_mem {α : Type} (p q : α → Bool) :
    ∀ l : List α, (∀ a ∈ l, p a = q a) → l.find? p = l.find? q := by
  intro l
  induction l with
  | nil => intro _; rfl
  | cons a l ih =>
    intro h
    rw [List.find?_cons, List.find?_cons, h a (List.mem_cons_self a l),
      ih fun x hx => h x (List.mem_cons_of_mem a hx)]

theorem messageCategoryFor_eq_spec (msg : List Nat) :
    messageCategoryFor msg = specClassify messageCategories msg := by
  have hsplit : messageCategories.dropLast ++ [(⟨"Other Messages", []⟩ : MessageCategory)]
      = messageCategories := by decide
  have hlast : List.find? (fun c => c.keywords.any (keywordMatches msg))
      [(⟨"Other Messages", []⟩ : MessageCategory)] = none := rfl
  have hfind : messageCategories.find? (fun c => c.keywords.any (keywordMatches msg))
      = messageCategories.dropLast.find? (fun c => c.keywords.any (keywordMatches msg)) := by
    conv_lhs => rw [← hsplit]
    rw [List.find?_append, hlast]
    cases messageCategories.dropLast.find? (fun c => c.keywords.any (keywordMatches msg)) <;> rfl
  simp only [specClassify, hfind, messageCategoryFor]
  rw [show (fun (c : MessageCategory) =>
        if c.keywords.any (fun keyword => includesSub (lowerStr msg) (lowerStr (strChars keyword)))
        then some c.category else none)
      = (fun c => if (fun (c : MessageCategory) => c.keywords.any (keywordMatches msg)) c
          then some c.category else none) from rfl]
  rw [findSome?_guard (fun (c : MessageCategory) => c.keywords.any (keywordMatches msg))
    MessageCategory.category]
  cases messageCategories.dropLast.find? (fun c => c.keywords.any (keywordMatches msg)) <;> rfl

theorem fallbackCategorization_eq_spec (msg : List Nat) :
    fallbackCategorization msg = specClassify aiTaxonomy msg := by
  have tableLower : (categoryKeywords.all fun ck => ck.2.all fun kw =>
      lowerStr (strChars kw) == strChars kw) = true := by decide
  have hpred : ∀ ck ∈ categoryKeywords,
      (ck.2.any fun keyword => includesSub (lowerStr msg) (strChars keyword))
        = ((fun c : MessageCategory => c.keywords.any (keywordMatches msg)) ∘
            fun ck : String × List String => (⟨ck.1, ck.2⟩ : MessageCategory)) ck := by
    intro ck hck
    apply any_congr_mem
    intro kw hkw
    have h := List.all_eq_true.mp (List.all_eq_true.mp tableLower ck hck) kw hkw
    rw [beq_iff_eq] at h
    show includesSub (lowerStr msg) (strChars kw)
        = includesSub (lowerStr msg) (lowerStr (strChars kw))
    rw [h]
  have hsing : List.find? (fun c : MessageCategory => c.keywords.any (keywordMatches msg))
      [(⟨"Other", []⟩ : MessageCategory)] = none := rfl
  simp only [fallbackCategorization]
  rw [show (fun ck : String × List String =>
        if ck.2.any (fun keyword => includesSub (lowerStr msg) (strChars keyword))
        then some ck.1 else none)
      = (fun ck => if (fun ck : String × List String =>
            ck.2.any fun keyword => includesSub (lowerStr msg) (strChars keyword)) ck
          then some (Prod.fst ck) else none) from rfl]
  rw [findSome?_guard (fun ck : String × List String =>
      ck.2.any fun keyword => includesSub (lowerStr msg) (strChars keyword)) Prod.fst]
  rw [find?_congr_mem _ _ categoryKeywords hpred]
  simp only [specClassify, aiTaxonomy]
  rw [List.find?_append, hsing, List.find?_map]
  cases categoryKeywords.find? ((fun c : MessageCategory => c.keywords.any (keywordMatches msg)) ∘
      fun ck : String × List String => (⟨ck.1, ck.2⟩ : MessageCategory)) <;> rfl

/-! ## Claim theorems -/

/-- C1: for every input text and the fixed message-topic taxonomy, the
classifier returns the name of the first category in taxonomy order with a
case-insensitively matching keyword, falling back to the catch-all name
(this holds for the dashboard classifier against its taxonomy and for
`fallbackCategorization` against the `ai.ts` taxonomy); in particular
`"test payment"` classifies as `"Payments & Purchases"`, not
`"Testing & Development"`. -/
theorem claim_C1_first_match_classifier :
    (∀ msg : List Nat, messageCategoryFor msg = specClassify messageCategories msg) ∧
    (∀ msg : List Nat, fallbackCategorization msg = specClassify aiTaxonomy msg) ∧
    messageCategoryFor (strChars "test payment") = "Payments & Purchases" ∧
    messageCategoryFor (strChars "test payment") ≠ "Testing & Development" :=
  ⟨messageCategoryFor_eq_spec, fallbackCategorization_eq_spec, by decide, by decide⟩

/-- C3: the message-topic grouping classifies each participating item,
appends it to its category's bucket, drops the buckets that ended up empty,
keeps the surviving buckets in fixed taxonomy order, and preserves the
input iteration order inside each bucket (each bucket is a filter of the
participating input sequence). -/
theorem claim_C3_message_grouping_structure (txs : List Transaction) :
    categorizeByMessages txs =
      (messageCategories.map fun c =>
        (c.category, (txs.filter txHasMessage).filter fun tx =>
          messageCategoryFor (txMessageText tx) == c.category)).filter
        fun b => decide (0 < b.2.length) :=
  categorizeByMessages_characterization txs

/-- C4: in the failure-reason grouping only items with status `'failed'`
participate, each is classified by its error text, and the error buckets
surface in first-appearance order of the failed-item iteration (not in a
fixed taxonomy order). -/
theorem claim_C4_failure_grouping_lazy_order (txs : List Transaction) :
    categorizeTransactions txs =
      [("Successful Transactions", txs.filter fun tx => tx.status == "success"),
       ("Pending Transactions", txs.filter fun tx => tx.status == "pending")] ++
      (dedupFirst ((txs.filter fun tx => tx.status == "failed").map txErrorCategory)).map
        fun k => ("Failed: " ++ k,
          (txs.filter fun tx => tx.status == "failed").filter
            fun tx => txErrorCategory tx == k) := by
  simp only [categorizeTransactions]
  rw [failedByError_characterization, List.map_map]
  rfl

/-- C5: `getErrorCategory` maps the three sample error strings to
"Insufficient Funds", "User Cancelled" and "Network Issues" respectively;
in particular "Network timeout occurred" resolves to "Network Issues", not
"Timeout", because the Network Issues rule is checked before the Timeout
rule. -/
theorem claim_C5_error_classifier_examples :
    getErrorCategory (strChars "Insufficient funds in wallet") = "Insufficient Funds" ∧
    getErrorCategory (strChars "User declined the transaction") = "User Cancelled" ∧
    getErrorCategory (strChars "Network timeout occurred") = "Network Issues" ∧
    getErrorCategory (strChars "Network timeout occurred") ≠ "Timeout" := by
  decide

/-- C6 counterexample: on the empty input collection the status grouping
`categorizeTransactions` does NOT return an empty grouping result: it
always contains the two fixed status buckets. -/
theorem claim_C6_counterexample :
    categorizeTransactions [] =
      [("Successful Transactions", []), ("Pending Transactions", [])] ∧
    categorizeTransactions [] ≠ [] := by
  decide

/-- C6 (amended): for an empty input collection the message-topic grouping
returns an empty grouping result, and the status/failure-reason grouping
contains no failure-reason entries (its failed-by-error record is empty)
but does contain the two fixed, empty status buckets; no error is raised
(all operations are total). -/
theorem claim_C6_empty_input :
    categorizeByMessages [] = [] ∧ failedByError [] = [] ∧
    categorizeTransactions [] =
      [("Successful Transactions", []), ("Pending Transactions", [])] := by
  decide

/-- C2 counterexample: a failed transaction whose `errorMessage` is absent
is NOT excluded from the failure-reason grouping: it appears in the
`"Failed: Other Errors"` bucket of `categorizeTransactions`. -/
theorem claim_C2_counterexample :
    ("Failed: Other Errors", [(⟨"failed", none, none⟩ : Transaction)]) ∈
      categorizeTransactions [⟨"failed", none, none⟩] ∧
    (⟨"failed", none, none⟩ : Transaction) ∈
      [(⟨"failed", none, none⟩ : Transaction)] := by
  decide

/-- C2 (amended): in the message-topic grouping an item whose message is
absent or blank after trimming appears in no bucket; the failure-reason
grouping, however, does not exclude blank error text: a failed item whose
`errorMessage` is absent or whitespace-only is classified via the empty or
blank string and lands in the `"Failed: Other Errors"` bucket. -/
theorem claim_C2_blank_text_handling :
    (∀ (txs : List Transaction) (tx : Transaction) (b : String × List Transaction),
      txHasMessage tx = false → b ∈ categorizeByMessages txs → tx ∉ b.2) ∧
    (∀ (txs : List Transaction) (tx : Transaction), tx ∈ txs → tx.status = "failed" →
      (∀ c ∈ strChars (tx.errorMessage.getD ""), isWs c = true) →
      ∃ b ∈ categorizeTransactions txs, b.1 = "Failed: Other Errors" ∧ tx ∈ b.2) := by
  constructor
  · intro txs tx b hblank hb htx
    rw [categorizeByMessages_characterization] at hb
    obtain ⟨c, _, rfl⟩ := List.mem_map.mp (List.mem_filter.mp hb).1
    have := (List.mem_filter.mp (List.mem_filter.mp htx).1).2
    rw [hblank] at this
    exact Bool.noConfusion this
  · intro txs tx htx hstatus hws
    have htxf : tx ∈ txs.filter fun t => t.status == "failed" :=
      List.mem_filter.mpr ⟨htx, by simp [hstatus]⟩
    have hcat : txErrorCategory tx = "Other Errors" := getErrorCategory_ws hws
    refine ⟨("Failed: " ++ "Other Errors",
      (txs.filter fun t => t.status == "failed").filter
        fun t => txErrorCategory t == "Other Errors"), ?_, rfl, ?_⟩
    · simp only [categorizeTransactions]
      refine List.mem_append_right _ ?_
      rw [failedByError_characterization, List.map_map]
      have hkey : "Other Errors" ∈
          dedupFirst ((txs.filter fun t => t.status == "failed").map txErrorCategory) :=
        mem_dedupFirst.mpr (by rw [← hcat]; exact List.mem_map_of_mem _ htxf)
      exact List.mem_map_of_mem _ hkey
    · exact List.mem_filter.mpr ⟨htxf, by simp [hcat]⟩

/-- C2 witness: concrete instances of both parts of the amended claim. -/
theorem claim_C2_blank_text_handling_witness :
    txHasMessage ⟨"pending", some "   ", none⟩ = false ∧
    ("Food & Dining", [(⟨"pending", some "lunch time", none⟩ : Transaction)]) ∈
      categorizeByMessages [⟨"pending", some "lunch time", none⟩, ⟨"pending", some "   ", none⟩] ∧
    (⟨"pending", some "   ", none⟩ : Transaction) ∉
      ("Food & Dining", [(⟨"pending", some "lunch time", none⟩ : Transaction)]).2 ∧
    ∃ b ∈ categorizeTransactions [(⟨"failed", none, none⟩ : Transaction)],
      b.1 = "Failed: Other Errors" ∧ (⟨"failed", none, none⟩ : Transaction) ∈ b.2 :=
  ⟨by decide, by decide,
    claim_C2_blank_text_handling.1
      [⟨"pending", some "lunch time", none⟩, ⟨"pending", some "   ", none⟩]
      ⟨"pending", some "   ", none⟩
      ("Food & Dining", [⟨"pending", some "lunch time", none⟩])
      (by decide) (by decide),
    claim_C2_blank_text_handling.2 [⟨"failed", none, none⟩] ⟨"failed", none, none⟩
      (by decide) rfl (by decide)⟩

/-- C7: both classifiers are total and always return a member of their
fixed taxonomy: `fallbackCategorization` one of its eight category names or
`"Other"`, and `getErrorCategory` one of its five error-category names or
`"Other Errors"`. -/
theorem claim_C7_classifier_totality (s : List Nat) :
    fallbackCategorization s ∈
      ["Food", "Shopping", "Bills", "Entertainment", "Transport", "Services",
       "Investment", "Gift", "Other"] ∧
    getErrorCategory s ∈
      ["Insufficient Funds", "User Cancelled", "Network Issues",
       "Invalid Address", "Timeout", "Other Errors"] := by
  constructor
  · have hnames : ∀ ck ∈ categoryKeywords,
        ck.1 ∈ ["Food", "Shopping", "Bills", "Entertainment", "Transport",
          "Services", "Investment", "Gift", "Other"] := by decide
    simp only [fallbackCategorization]
    cases hfind : categoryKeywords.findSome? (fun ck =>
        if ck.2.any (fun keyword => includesSub (lowerStr s) (strChars keyword))
        then some ck.1 else none) with
    | none => decide
    | some name =>
      obtain ⟨ck, hck, hckf⟩ := List.exists_of_findSome?_eq_some hfind
      split at hckf
      · cases hckf
        exact hnames ck hck
      · cases hckf
  · simp only [getErrorCategory]
    split_ifs <;> decide

/-- C8: every input that is empty or consists only of whitespace code
points classifies to the catch-all: `"Other"` for `fallbackCategorization`
and `"Other Errors"` for `getErrorCategory` — no keyword in either table
matches such a string. -/
theorem claim_C8_whitespace_catch_all (s : List Nat) (hws : ∀ c ∈ s, isWs c = true) :
    fallbackCategorization s = "Other" ∧ getErrorCategory s = "Other Errors" :=
  ⟨fallbackCategorization_ws hws, getErrorCategory_ws hws⟩

/-- C8 witness: the empty string and a whitespace-only string. -/
theorem claim_C8_whitespace_catch_all_witness :
    ((∀ c ∈ strChars "", isWs c = true) ∧
      fallbackCategorization (strChars "") = "Other" ∧
      getErrorCategory (strChars "") = "Other Errors") ∧
    ((∀ c ∈ strChars "  ", isWs c = true) ∧
      fallbackCategorization (strChars "  ") = "Other" ∧
      getErrorCategory (strChars "  ") = "Other Errors") :=
  ⟨⟨by decide, claim_C8_whitespace_catch_all (strChars "") (by decide)⟩,
   ⟨by decide, claim_C8_whitespace_catch_all (strChars "  ") (by decide)⟩⟩

/-- C9: both message classifiers are case-insensitive — classifying a
string and classifying its lowercased form agree — and in particular
`"GIFT for mom"` and `"gift for mom"` classify identically. -/
theorem claim_C9_case_insensitive :
    (∀ s : List Nat, fallbackCategorization (lowerStr s) = fallbackCategorization s) ∧
    (∀ s : List Nat, messageCategoryFor (lowerStr s) = messageCategoryFor s) ∧
    messageCategoryFor (strChars "GIFT for mom") = messageCategoryFor (strChars "gift for mom") ∧
    fallbackCategorization (strChars "GIFT for mom")
      = fallbackCategorization (strChars "gift for mom") := by
  refine ⟨fun s => ?_, fun s => ?_, by decide, by decide⟩
  · simp only [fallbackCategorization, lowerStr_idem]
  · simp only [messageCategoryFor, lowerStr_idem]

/-- C10: every failed transaction is assigned to exactly one bucket of the
failure-reason grouping, and when its `errorMessage` is absent or empty it
is classified via the empty string into the `"Other Errors"` bucket rather
than being dropped. -/
theorem claim_C10_failed_bucket_unique (txs : List Transaction) (tx : Transaction)
    (htx : tx ∈ txs) (hstatus : tx.status = "failed") :
    (∃! b, b ∈ failedByError (txs.filter fun t => t.status == "failed") ∧ tx ∈ b.2) ∧
    ((tx.errorMessage = none ∨ tx.errorMessage = some "") →
      ∃ b ∈ failedByError (txs.filter fun t => t.status == "failed"),
        b.1 = "Other Errors" ∧ tx ∈ b.2) := by
  have htxf : tx ∈ txs.filter fun t => t.status == "failed" :=
    List.mem_filter.mpr ⟨htx, by simp [hstatus]⟩
  rw [failedByError_characterization]
  constructor
  · refine ⟨(txErrorCategory tx,
      (txs.filter fun t => t.status == "failed").filter
        fun t => txErrorCategory t == txErrorCategory tx), ⟨?_, ?_⟩, ?_⟩
    · exact List.mem_map_of_mem _ (mem_dedupFirst.mpr (List.mem_map_of_mem _ htxf))
    · exact List.mem_filter.mpr ⟨htxf, by simp⟩
    · rintro b ⟨hb, htxb⟩
      obtain ⟨k, _, rfl⟩ := List.mem_map.mp hb
      have hk : txErrorCategory tx = k := by
        have h := (List.mem_filter.mp htxb).2
        simpa using h
      rw [hk]
  · intro hblank
    have hcat : txErrorCategory tx = "Other Errors" := by
      rcases hblank with h | h <;> simp only [txErrorCategory, h] <;> decide
    refine ⟨("Other Errors",
      (txs.filter fun t => t.status == "failed").filter
        fun t => txErrorCategory t == "Other Errors"), ?_, rfl, ?_⟩
    · exact List.mem_map_of_mem _ (mem_dedupFirst.mpr (by rw [← hcat]; exact List.mem_map_of_mem _ htxf))
    · exact List.mem_filter.mpr ⟨htxf, by simp [hcat]⟩

/-- C10 witness: one failed transaction with no error message. -/
theorem claim_C10_failed_bucket_unique_witness :
    (⟨"failed", none, none⟩ : Transaction) ∈ [(⟨"failed", none, none⟩ : Transaction)] ∧
    ((∃! b, b ∈ failedByError
        ([(⟨"failed", none, none⟩ : Transaction)].filter fun t => t.status == "failed") ∧
        (⟨"failed", none, none⟩ : Transaction) ∈ b.2) ∧
      (((⟨"failed", none, none⟩ : Transaction).errorMessage = none ∨
          (⟨"failed", none, none⟩ : Transaction).errorMessage = some "") →
        ∃ b ∈ failedByError
            ([(⟨"failed", none, none⟩ : Transaction)].filter fun t => t.status == "failed"),
          b.1 = "Other Errors" ∧ (⟨"failed", none, none⟩ : Transaction) ∈ b.2)) :=
  ⟨by decide,
    claim_C10_failed_bucket_unique [⟨"failed", none, none⟩] ⟨"failed", none, none⟩
      (by decide) rfl⟩

end Escrow
